import Mathlib

/-!
Verification of the streaming relay in `src/server.ts` (vibe-homepage).

The relay consumes an upstream SSE-style byte stream, reassembles
`"\n\n"`-delimited frames (`processBuffer`), classifies each frame's
`data:` payload, and forwards events over a WebSocket
(`streamPersonalWebsite` driven from `wss.on('connection')`).

Modelling conventions:
* Text is `List Char` (`Str`).  `TextDecoder('utf-8', {stream:true})`
  guarantees that the concatenation of the decoded chunk texts equals the
  decoded concatenation of the byte chunks, so upstream chunks are
  modelled as character sequences and chunk boundaries as arbitrary
  character boundaries.
* `JSON.parse` is a platform function, not repository code; it is
  modelled as an arbitrary parameter `parse : Str → Option JsValue`
  (`none` = `SyntaxError`).  `JsValue` models the parsed JavaScript
  value; JS property access on non-objects yields `undefined`, modelled
  by `getField` returning `none` (the `TypeError` thrown by property
  access on `null` is caught by the surrounding `catch` and swallowed
  there, which nets to the same skip behaviour).
* The `while` loop of `processBuffer` runs on fuel `buffer.length`,
  which is enough because every iteration removes at least the two
  delimiter characters; `processBuffer_fix` recovers the exact loop
  equation.
-/

namespace Vibe

abbrev Str := List Char

/-- JavaScript whitespace (`String.prototype.trim` and regex `\s`):
WhiteSpace and LineTerminator code points. -/
def isJsWs (c : Char) : Bool :=
  c = ' ' || c = '\t' || c = '\n' || c = '\r' ||
  c = '\x0b' || c = '\x0c' || c = '\u00A0' || c = '\uFEFF' ||
  c = '\u1680' || (('\u2000' : Char) ≤ c && c ≤ '\u200A') ||
  c = '\u2028' || c = '\u2029' || c = '\u202F' || c = '\u205F' || c = '\u3000'

/-- `line.trim()` -/
def trimStr (s : Str) : Str :=
  ((s.dropWhile isJsWs).reverse.dropWhile isJsWs).reverse

/-- `rawEvent.split('\n')` -/
def splitLines : Str → List Str
  | [] => [[]]
  | c :: rest =>
    if c = '\n' then [] :: splitLines rest
    else
      match splitLines rest with
      | [] => [[c]]
      | l :: ls => (c :: l) :: ls

/-- `buffer.indexOf('\n\n')` together with the two `slice` calls: the text
before the first blank-line delimiter and the text after it. -/
def splitFirstDelim : Str → Option (Str × Str)
  | [] => none
  | [_] => none
  | c :: d :: rest =>
    if c = '\n' ∧ d = '\n' then some ([], rest)
    else
      match splitFirstDelim (d :: rest) with
      | some (raw, tail) => some (c :: raw, tail)
      | none => none

/-- The literal prefix `"data:"`. -/
def dataMark : Str := ['d', 'a', 't', 'a', ':']

/-- `line.replace(/^data:\s*/, '')` -/
def stripData (line : Str) : Str :=
  if dataMark.isPrefixOf line then (line.drop 5).dropWhile isJsWs else line

/-- Payload extraction from one raw frame: split on line breaks, trim each
line, keep the lines starting with `data:`, strip the marker and the
following whitespace from each, rejoin with a line break. -/
def extractPayload (raw : Str) : Str :=
  List.intercalate ['\n']
    ((((splitLines raw).map trimStr).filter (fun l => dataMark.isPrefixOf l)).map stripData)

/-- The terminal sentinel `'[DONE]'`. -/
def doneLit : Str := ['[', 'D', 'O', 'N', 'E', ']']

example : splitFirstDelim ['a', '\n', '\n', 'b'] = some (['a'], ['b']) := by decide

example : extractPayload ("data: hi".toList) = ['h', 'i'] := by decide

/- A JavaScript value as produced by `JSON.parse` (objects carry their
properties in order, duplicate keys already resolved by the parser;
arrays and objects are separate inductives so that all recursion over
values is structural). -/
mutual

inductive JsValue where
  | null : JsValue
  | bool : Bool → JsValue
  | num : Int → JsValue
  | str : Str → JsValue
  | arr : JsArr → JsValue
  | obj : JsObj → JsValue

inductive JsArr where
  | nil : JsArr
  | cons : JsValue → JsArr → JsArr

inductive JsObj where
  | nil : JsObj
  | cons : Str → JsValue → JsObj → JsObj

end

/-- Property lookup in an object's field list. -/
def lookupField : JsObj → Str → Option JsValue
  | .nil, _ => none
  | .cons k' v rest, k => if k' = k then some v else lookupField rest k

/-- JS property access `v.k`; `none` models `undefined` (property access
on a primitive yields `undefined`; on `null` it throws a `TypeError`
that the surrounding `catch` swallows, which nets to the same skip). -/
def getField (v : JsValue) (k : Str) : Option JsValue :=
  match v with
  | .obj fields => lookupField fields k
  | _ => none

/-- JS truthiness of a value. -/
def truthy : JsValue → Bool
  | .null => false
  | .bool b => b
  | .num n => decide (n ≠ 0)
  | .str s => decide (s ≠ [])
  | .arr _ => true
  | .obj _ => true

def intToStr (n : Int) : Str := (toString n).toList

def natToStr (n : Nat) : Str := (Nat.repr n).toList

/- `String(v)` as used by `new Error(message)` when the message value is
not already a string (array elements join with a comma, `null` elements
become empty, objects become `[object Object]`). -/
mutual

def jsToString : JsValue → Str
  | .str s => s
  | .num n => intToStr n
  | .bool b => if b then "true".toList else "false".toList
  | .null => "null".toList
  | .obj _ => "[object Object]".toList
  | .arr a => List.intercalate [','] (arrStrings a)

def arrStrings : JsArr → List Str
  | .nil => []
  | .cons v rest =>
    (match v with
     | .null => []
     | w => jsToString w) :: arrStrings rest

end

example : jsToString (.arr (.cons (.num 1) (.cons .null (.cons (.str ['x']) .nil))))
    = ['1', ',', ',', 'x'] := by decide

def typeKey : Str := "type".toList
def deltaKey : Str := "delta".toList
def choicesKey : Str := "choices".toList
def contentKey : Str := "content".toList
def textKey : Str := "text".toList
def errKey : Str := "error".toList
def msgKey : Str := "message".toList

def deltaTypeLit : Str := "response.output_text.delta".toList
def errTypeLit : Str := "response.error".toList

/-- The default message `'The OpenAPI service returned an unknown error.'`. -/
def defaultErrMsg : Str := "The OpenAPI service returned an unknown error.".toList

/-- The substring tested by the re-throw filter,
`error.message.includes('OpenAPI service returned')`. -/
def magicLit : Str := "OpenAPI service returned".toList

/-- `hay.includes(needle)` -/
def sIncludes (hay needle : Str) : Bool :=
  match hay with
  | [] => needle.isEmpty
  | _ :: t => needle.isPrefixOf hay || sIncludes t needle

/-- The first branch guard and its extracted text:
`parsed.type === 'response.output_text.delta' && typeof parsed.delta === 'string'`. -/
def deltaText (v : JsValue) : Option Str :=
  match getField v typeKey with
  | some (.str t) =>
    if t = deltaTypeLit then
      match getField v deltaKey with
      | some (.str d) => some d
      | _ => none
    else none
  | _ => none

/-- `choice.delta && choice.delta.content && typeof choice.delta.content === 'string'`
(a falsy or non-string `content`, such as the empty string, emits nothing). -/
def choiceEmit (choice : JsValue) : Option Str :=
  match getField choice deltaKey with
  | some d =>
    if truthy d then
      match getField d contentKey with
      | some ct =>
        if truthy ct then
          match ct with
          | .str s => some s
          | _ => none
        else none
      | none => none
    else none
  | none => none

/-- The second branch: `parsed.choices && Array.isArray(parsed.choices) &&
parsed.choices.length > 0`; `none` means the branch is not taken (fall
through), `some r` means it is taken and `r` is what it emits. -/
def choicesBranch (v : JsValue) : Option (Option Str) :=
  match getField v choicesKey with
  | some (.arr (.cons choice _)) => some (choiceEmit choice)
  | _ => none

/-- `typeof v.k === 'string'` together with the extracted string. -/
def strField (v : JsValue) (k : Str) : Option Str :=
  match getField v k with
  | some (.str s) => some s
  | _ => none

/-- `parsed.error?.message ?? 'The OpenAPI service returned an unknown error.'`,
coerced to a string by `new Error(message)`. -/
def errMessage (v : JsValue) : Str :=
  match getField v errKey with
  | some e =>
    match e with
    | .null => defaultErrMsg
    | _ =>
      match getField e msgKey with
      | some .null => defaultErrMsg
      | some m => jsToString m
      | none => defaultErrMsg
  | none => defaultErrMsg

/-- What processing one frame does to the session. -/
inductive FrameAct where
  | emit : Str → FrameAct
  | skip : FrameAct
  | raise : Str → FrameAct
deriving DecidableEq, Repr

/-- The `try`/`catch` body handling one parsed payload (the `else if`
chain of `processBuffer`).  A thrown error is re-thrown by the `catch`
only when its message contains `'OpenAPI service returned'`; otherwise
it is logged and swallowed, i.e. the frame is skipped. -/
def classifyParsed (v : JsValue) : FrameAct :=
  match deltaText v with
  | some d => .emit d
  | none =>
    match choicesBranch v with
    | some r =>
      match r with
      | some s => .emit s
      | none => .skip
    | none =>
      match strField v contentKey with
      | some s => .emit s
      | none =>
        match strField v textKey with
        | some s => .emit s
        | none =>
          match getField v typeKey with
          | some (.str t) =>
            if t = errTypeLit then
              if sIncludes (errMessage v) magicLit then .raise (errMessage v) else .skip
            else .skip
          | _ => .skip

/-- Processing of one non-empty, non-sentinel payload: `JSON.parse`
failure is a `SyntaxError`, logged and swallowed (the frame is skipped). -/
def handlePayload (parse : Str → Option JsValue) (payload : Str) : FrameAct :=
  match parse payload with
  | none => .skip
  | some v => classifyParsed v

/-- Result of one run of `processBuffer`: the `while` loop either runs out
of delimiters (`more` keeps the remaining buffer), sets `completed` and
returns on the `'[DONE]'` sentinel (`fin` keeps the text the loop leaves
behind), or an exception propagates out (`raise`). -/
inductive PBOut where
  | more : Str → PBOut
  | fin : Str → PBOut
  | raise : Str → PBOut
deriving DecidableEq, Repr

/-- The `while ((newlineIndex = buffer.indexOf('\n\n')) !== -1)` loop of
`processBuffer`, on fuel.  Every iteration removes the extracted frame
plus the two delimiter characters from the buffer, so `buffer.length`
fuel always suffices; `processBuffer` below fixes that fuel. -/
def processBufferFuel (parse : Str → Option JsValue) : Nat → Str → List Str × PBOut
  | 0, buffer => ([], .more buffer)
  | fuel + 1, buffer =>
    match splitFirstDelim buffer with
    | none => ([], .more buffer)
    | some (raw, rest) =>
      let payload := extractPayload raw
      if payload = [] then processBufferFuel parse fuel rest
      else if payload = doneLit then ([], .fin rest)
      else
        match handlePayload parse payload with
        | .emit s =>
          let r := processBufferFuel parse fuel rest
          (s :: r.1, r.2)
        | .skip => processBufferFuel parse fuel rest
        | .raise m => ([], .raise m)

/-- One call of `processBuffer`: the emitted chunk texts (in `onChunk`
order) and how the loop left the buffer. -/
def processBuffer (parse : Str → Option JsValue) (buffer : Str) : List Str × PBOut :=
  processBufferFuel parse buffer.length buffer

/-- State of the read loop of `streamPersonalWebsite`: still reading with
the given buffered leftover, stopped with `completed = true`, or
terminated by a propagated exception. -/
inductive LoopState where
  | reading : Str → LoopState
  | completedSt : LoopState
  | raised : Str → LoopState
deriving DecidableEq, Repr

/-- One iteration of the read loop: append the decoded chunk to the
buffer and run `processBuffer`.  In a non-`reading` state the loop has
already stopped, so further upstream chunks are never consumed. -/
def feedChunk (parse : Str → Option JsValue) (st : LoopState) (c : Str) :
    List Str × LoopState :=
  match st with
  | .reading buf =>
    let r := processBuffer parse (buf ++ c)
    match r.2 with
    | .more b => (r.1, .reading b)
    | .fin _ => (r.1, .completedSt)
    | .raise m => (r.1, .raised m)
  | s => ([], s)

/-- The read loop over a whole sequence of upstream chunks. -/
def runLoop (parse : Str → Option JsValue) : LoopState → List Str → List Str × LoopState
  | st, [] => ([], st)
  | st, c :: cs =>
    let r1 := feedChunk parse st c
    let r2 := runLoop parse r1.2 cs
    (r1.1 ++ r2.1, r2.2)

/-- How `streamPersonalWebsite` settles: the promise resolves (`ok`) or
rejects with an error message (`raise`). -/
inductive RunOut where
  | ok : RunOut
  | raise : Str → RunOut
deriving DecidableEq, Repr

/-- A full run of `streamPersonalWebsite` over the upstream chunk
sequence: the read loop, then — only when `completed` is still false —
the end-of-stream flush `buffer += decoder.decode(); processBuffer()`
(the final decoder flush adds no characters in the character-level
model). -/
def runStream (parse : Str → Option JsValue) (chunks : List Str) : List Str × RunOut :=
  let r := runLoop parse (.reading []) chunks
  match r.2 with
  | .reading buf =>
    let f := processBuffer parse buf
    match f.2 with
    | .raise m => (r.1 ++ f.1, .raise m)
    | _ => (r.1 ++ f.1, .ok)
  | .completedSt => (r.1, .ok)
  | .raised m => (r.1, .raise m)

/-- A downstream WebSocket message, `sendPayload`'s argument. -/
inductive Msg where
  | chunk : Str → Msg
  | done : Msg
  | error : Str → Msg
deriving DecidableEq, Repr

def isTerminal : Msg → Bool
  | .chunk _ => false
  | .done => true
  | .error _ => true

def terminalCount (l : List Msg) : Nat := (l.filter isTerminal).length

/-- Once a terminal message appears, no chunk message follows it. -/
def noPostTerminalChunk : List Msg → Bool
  | [] => true
  | m :: rest =>
    ((!isTerminal m) || rest.all isTerminal) && noPostTerminalChunk rest

/-- `` `OpenAPI request failed with status ${response.status}: ${errorText}`.trim() `` -/
def upstreamFailMsg (status : Nat) (body : Str) : Str :=
  trimStr ("OpenAPI request failed with status ".toList ++ natToStr status
    ++ [':', ' '] ++ body)

/-- The `ConfigurationError` message thrown when the API key is absent. -/
def configErrMsg : Str :=
  "OPENAPI_API_KEY is not configured. Please add it to your environment.".toList

/-- One accepted connection, as the relay sees it.  `noKey`: the
credential check throws before any upstream request.  `fetchFail`: the
initial upstream response is not ok or lacks a body (its status and body
text).  `stream chunks cut`: the upstream byte stream delivers `chunks`;
`cut = some k` means the peer disconnected after the `k`-th successful
read and before the next one (so the socket leaves `OPEN`, `abort()`
fires, and the pending read rejects with `AbortError`); `cut = none`
means the peer stays connected. -/
inductive SessionInput where
  | noKey : SessionInput
  | fetchFail : Nat → Str → SessionInput
  | stream : List Str → Option Nat → SessionInput

/-- Messages actually delivered downstream for a streaming session.
With no disconnect, every `onChunk` send happens on the open socket and
the settled promise sends `done` (resolve) or `error` (reject, unless
`AbortError`).  With a disconnect at `cut = some k`: sends performed
while the first `k` chunks were processed went out on the open socket;
if the session was already terminal by then, its terminal message was
already delivered; otherwise the pending read rejects with `AbortError`,
`streamPersonalWebsite` catches it and resolves, and the `done` send
attempted by `.then` is dropped by the `readyState === OPEN` guard. -/
def streamMsgs (parse : Str → Option JsValue) (chunks : List Str) (cut : Option Nat) :
    List Msg :=
  match cut with
  | none =>
    let r := runStream parse chunks
    r.1.map Msg.chunk ++
      [match r.2 with
       | .ok => Msg.done
       | .raise m => Msg.error m]
  | some k =>
    let r := runLoop parse (.reading []) (chunks.take k)
    match r.2 with
    | .reading _ => r.1.map Msg.chunk
    | .completedSt => r.1.map Msg.chunk ++ [Msg.done]
    | .raised m => r.1.map Msg.chunk ++ [Msg.error m]

/-- All messages delivered downstream for one accepted connection
(`wss.on('connection')` wiring `streamPersonalWebsite` to `sendPayload`). -/
def sessionMsgs (parse : Str → Option JsValue) : SessionInput → List Msg
  | .noKey => [Msg.error configErrMsg]
  | .fetchFail status body => [Msg.error (upstreamFailMsg status body)]
  | .stream chunks cut => streamMsgs parse chunks cut

/-- Payload extraction exactly as the claim C8 words it: only lines
beginning with the literal prefix `data:` contribute; the prefix and one
following space are stripped; the surviving lines are rejoined with a
line break.  (No trimming, one space only — for comparison with
`extractPayload`.) -/
def claimPayloadC8 (raw : Str) : Str :=
  List.intercalate ['\n']
    (((splitLines raw).filter (fun l => dataMark.isPrefixOf l)).map
      (fun l =>
        let r := l.drop 5
        if r.head? = some ' ' then r.tail else r))

/-- Payload extraction as the code actually behaves, written in the
spec's style: each line is trimmed of surrounding whitespace; a trimmed
line contributes exactly when it begins with `data:`; the prefix and all
following whitespace are stripped; the survivors are rejoined with a
line break. -/
def specPayloadWs (raw : Str) : Str :=
  List.intercalate ['\n']
    ((splitLines raw).filterMap (fun l =>
      let t := trimStr l
      if dataMark.isPrefixOf t then some ((t.drop 5).dropWhile isJsWs) else none))

/-- Parser used by the C3 witness: every payload decodes to a frame that
would emit the chunk `JUNK`, so any processed frame after the sentinel
would be visible. -/
def pC3 : Str → Option JsValue :=
  fun _ => some (.obj (.cons contentKey (.str "JUNK".toList) .nil))

/-- Parser for the C4 evaluation: the payload `errA` decodes to an
explicit upstream-error value carrying the embedded message
`upstream exploded`. -/
def pC4 : Str → Option JsValue :=
  fun s =>
    if s = "errA".toList then
      some (.obj (.cons typeKey (.str errTypeLit)
        (.cons errKey (.obj (.cons msgKey (.str "upstream exploded".toList) .nil)) .nil)))
    else none

/-- Parser for the C5 witness: `d1` decodes to a direct-content frame. -/
def pC5 : Str → Option JsValue :=
  fun s =>
    if s = "d1".toList then some (.obj (.cons contentKey (.str "Hi".toList) .nil))
    else none

/-- Parser for the C6 counterexample: the payload `hi` decodes to a
direct-content frame, so the trailing text `data: hi` would emit a chunk
if it were processed as a frame. -/
def pC6 : Str → Option JsValue :=
  fun s =>
    if s = "hi".toList then some (.obj (.cons contentKey (.str "hi!".toList) .nil))
    else none

/-- Parser for the C7 witness: `good` decodes to a direct-content frame,
`errframe` to an explicit upstream-error value with no embedded message,
and every other payload (in particular the malformed `o(ps`) fails to
decode. -/
def pC7 : Str → Option JsValue :=
  fun s =>
    if s = "good".toList then some (.obj (.cons contentKey (.str "ok".toList) .nil))
    else if s = "errframe".toList then some (.obj (.cons typeKey (.str errTypeLit) .nil))
    else none

/-- Parser for the C10 witness: `d1` decodes to a direct-content frame. -/
def pC10 : Str → Option JsValue :=
  fun s =>
    if s = "d1".toList then some (.obj (.cons contentKey (.str "a".toList) .nil))
    else none

/-- If the delimiter search succeeds, the buffer decomposes as the
extracted frame, the two-character delimiter, and the remainder. -/
theorem splitFirstDelim_eq_some (b : Str) : ∀ raw rest : Str,
    splitFirstDelim b = some (raw, rest) → b = raw ++ '\n' :: '\n' :: rest := by
  induction b using splitFirstDelim.induct with
  | case1 => intro raw rest h; simp [splitFirstDelim] at h
  | case2 hd => intro raw rest h; simp [splitFirstDelim] at h
  | case3 c d r hcd =>
    intro raw rest h
    obtain ⟨hc, hd⟩ := hcd
    subst hc; subst hd
    simp [splitFirstDelim] at h
    obtain ⟨rfl, rfl⟩ := h
    rfl
  | case4 c d r hcd raw0 tail hs ih =>
    intro raw rest h
    simp only [splitFirstDelim, if_neg hcd, hs] at h
    simp only [Option.some.injEq, Prod.mk.injEq] at h
    obtain ⟨rfl, rfl⟩ := h
    have h3 := ih raw0 tail hs
    simp [h3]
  | case5 c d r hcd hs ih =>
    intro raw rest h
    simp only [splitFirstDelim, if_neg hcd, hs] at h
    exact Option.noConfusion h

/-- Appending more text does not change the first extracted frame, only
the remainder. -/
theorem splitFirstDelim_append (b c : Str) : ∀ raw rest : Str,
    splitFirstDelim b = some (raw, rest) →
    splitFirstDelim (b ++ c) = some (raw, rest ++ c) := by
  induction b using splitFirstDelim.induct with
  | case1 => intro raw rest h; simp [splitFirstDelim] at h
  | case2 hd => intro raw rest h; simp [splitFirstDelim] at h
  | case3 ch d r hcd =>
    intro raw rest h
    obtain ⟨hc, hd⟩ := hcd
    subst hc; subst hd
    simp [splitFirstDelim] at h
    obtain ⟨rfl, rfl⟩ := h
    simp [splitFirstDelim]
  | case4 ch d r hcd raw0 tail hs ih =>
    intro raw rest h
    simp only [splitFirstDelim, if_neg hcd, hs] at h
    simp only [Option.some.injEq, Prod.mk.injEq] at h
    obtain ⟨rfl, rfl⟩ := h
    have h2 := ih raw0 tail hs
    simp only [List.cons_append] at h2 ⊢
    simp only [splitFirstDelim, if_neg hcd]
    rw [h2]
  | case5 ch d r hcd hs ih =>
    intro raw rest h
    simp only [splitFirstDelim, if_neg hcd, hs] at h
    exact Option.noConfusion h

/-- If a frame text (even when extended by one more line-feed) contains
no delimiter, then frame-plus-delimiter-plus-remainder splits at exactly
that delimiter. -/
theorem splitFirstDelim_frame (rest : Str) : ∀ raw : Str,
    splitFirstDelim (raw ++ ['\n']) = none →
    splitFirstDelim (raw ++ '\n' :: '\n' :: rest) = some (raw, rest) := by
  intro raw
  induction raw with
  | nil =>
    intro _
    simp [splitFirstDelim]
  | cons ch raw' ih =>
    intro h
    cases raw' with
    | nil =>
      have hch : ch ≠ '\n' := by
        intro hc
        simp [splitFirstDelim, hc] at h
      have hch2 : ¬(ch = '\n' ∧ ('\n' : Char) = '\n') := by
        intro hc; exact hch hc.1
      have hstep : splitFirstDelim ('\n' :: '\n' :: rest) = some ([], rest) := by
        simp [splitFirstDelim]
      simp only [List.cons_append, List.nil_append, splitFirstDelim, if_neg hch2, hstep]
      simp [hch]
    | cons d t =>
      have hcd : ¬(ch = '\n' ∧ d = '\n') := by
        intro hc
        simp [splitFirstDelim, hc.1, hc.2] at h
      have h' : splitFirstDelim ((d :: t) ++ ['\n']) = none := by
        simp only [List.cons_append, splitFirstDelim, if_neg hcd] at h
        revert h
        match hx : splitFirstDelim (d :: (t ++ ['\n'])) with
        | some (a, b) => intro h; simp at h
        | none => intro _; rfl
      have h2 := ih h'
      simp only [List.cons_append] at h2 ⊢
      simp only [splitFirstDelim, if_neg hcd]
      rw [h2]

/-- Fuel irrelevance: any fuel at least the buffer length computes the
same result as the canonical fuel `buffer.length`. -/
theorem processBufferFuel_eq (parse : Str → Option JsValue) :
    ∀ f b, List.length b ≤ f →
      processBufferFuel parse f b = processBuffer parse b := by
  intro f
  induction f using Nat.strong_induction_on with
  | _ f ih =>
    cases f with
    | zero =>
      intro b hb
      have hb0 : b = [] := List.length_eq_zero.mp (Nat.le_zero.mp hb)
      subst hb0
      rfl
    | succ f' =>
      intro b hb
      cases hsplit : splitFirstDelim b with
      | none =>
        have h1 : processBufferFuel parse (f' + 1) b = ([], .more b) := by
          simp [processBufferFuel, hsplit]
        have h2 : processBuffer parse b = ([], .more b) := by
          unfold processBuffer
          cases hl : List.length b with
          | zero => rfl
          | succ n => simp [processBufferFuel, hsplit]
        rw [h1, h2]
      | some pr =>
        obtain ⟨raw, rest⟩ := pr
        have hb2 : b = raw ++ '\n' :: '\n' :: rest :=
          splitFirstDelim_eq_some b raw rest hsplit
        have hlen : List.length b = List.length raw + List.length rest + 2 := by
          subst hb2; simp [List.length_append]; omega
        obtain ⟨m, hm⟩ : ∃ m, List.length b = m + 1 := ⟨List.length b - 1, by omega⟩
        have e1 : processBufferFuel parse f' rest = processBuffer parse rest :=
          ih f' (by omega) rest (by omega)
        have e2 : processBufferFuel parse m rest = processBuffer parse rest :=
          ih m (by omega) rest (by omega)
        show processBufferFuel parse (f' + 1) b = processBuffer parse b
        unfold processBuffer
        rw [hm]
        simp only [processBufferFuel, hsplit]
        rw [e1, e2]

/-- The exact loop equation of `processBuffer`. -/
theorem processBuffer_fix (parse : Str → Option JsValue) (b : Str) :
    processBuffer parse b =
      match splitFirstDelim b with
      | none => ([], .more b)
      | some (raw, rest) =>
        let payload := extractPayload raw
        if payload = [] then processBuffer parse rest
        else if payload = doneLit then ([], .fin rest)
        else
          match handlePayload parse payload with
          | .emit s =>
            let r := processBuffer parse rest
            (s :: r.1, r.2)
          | .skip => processBuffer parse rest
          | .raise m => ([], .raise m) := by
  cases hsplit : splitFirstDelim b with
  | none =>
    unfold processBuffer
    cases hl : List.length b with
    | zero => simp [processBufferFuel, hsplit]
    | succ n => simp [processBufferFuel, hsplit]
  | some pr =>
    obtain ⟨raw, rest⟩ := pr
    have hb2 : b = raw ++ '\n' :: '\n' :: rest :=
      splitFirstDelim_eq_some b raw rest hsplit
    have hlen : List.length b = List.length raw + List.length rest + 2 := by
      subst hb2; simp [List.length_append]; omega
    obtain ⟨m, hm⟩ : ∃ m, List.length b = m + 1 := ⟨List.length b - 1, by omega⟩
    have e2 : processBufferFuel parse m rest = processBuffer parse rest :=
      processBufferFuel_eq parse m rest (by omega)
    conv_lhs => rw [processBuffer, hm]
    simp only [processBufferFuel, hsplit]
    rw [e2]

/-- Unfolding when the buffer holds no complete frame. -/
theorem processBuffer_none (parse : Str → Option JsValue) (b : Str)
    (h : splitFirstDelim b = none) : processBuffer parse b = ([], .more b) := by
  rw [processBuffer_fix, h]

/-- Unfolding when a first frame is available. -/
theorem processBuffer_some (parse : Str → Option JsValue) (b raw rest : Str)
    (h : splitFirstDelim b = some (raw, rest)) :
    processBuffer parse b =
      (if extractPayload raw = [] then processBuffer parse rest
       else if extractPayload raw = doneLit then ([], .fin rest)
       else
         match handlePayload parse (extractPayload raw) with
         | .emit s =>
           ((s :: (processBuffer parse rest).1), (processBuffer parse rest).2)
         | .skip => processBuffer parse rest
         | .raise m => ([], .raise m)) := by
  rw [processBuffer_fix, h]

/-- The loop always leaves a buffer with no remaining delimiter when it
stops in the `more` state, so a second run over the leftover is a no-op. -/
theorem processBuffer_more_none (parse : Str → Option JsValue) :
    ∀ n b e b', List.length b ≤ n → processBuffer parse b = (e, .more b') →
      splitFirstDelim b' = none := by
  intro n
  induction n using Nat.strong_induction_on with
  | _ n ih =>
    intro b e b' hn h
    cases hsplit : splitFirstDelim b with
    | none =>
      rw [processBuffer_none parse b hsplit] at h
      simp only [Prod.mk.injEq, PBOut.more.injEq] at h
      obtain ⟨rfl, rfl⟩ := h
      exact hsplit
    | some pr =>
      obtain ⟨raw, rest⟩ := pr
      have hb2 : b = raw ++ '\n' :: '\n' :: rest :=
        splitFirstDelim_eq_some b raw rest hsplit
      have hlen : List.length b = List.length raw + List.length rest + 2 := by
        subst hb2; simp [List.length_append]; omega
      rw [processBuffer_some parse b raw rest hsplit] at h
      by_cases hp : extractPayload raw = []
      · rw [if_pos hp] at h
        exact ih (List.length rest) (by omega) rest e b' (Nat.le_refl _) h
      · rw [if_neg hp] at h
        by_cases hd : extractPayload raw = doneLit
        · rw [if_pos hd] at h
          simp at h
        · rw [if_neg hd] at h
          cases hact : handlePayload parse (extractPayload raw) with
          | emit s =>
            simp only [hact] at h
            simp only [Prod.mk.injEq] at h
            obtain ⟨h1, h2⟩ := h
            exact ih (List.length rest) (by omega) rest
              (processBuffer parse rest).1 b' (Nat.le_refl _)
              (by rw [← h2])
          | skip =>
            simp only [hact] at h
            exact ih (List.length rest) (by omega) rest e b' (Nat.le_refl _) h
          | raise m =>
            simp only [hact] at h
            simp at h

/-- Composition of the frame-extraction loop with buffer growth: running
the loop on `b ++ c` is running it on `b` and then, if it was still
looking for more input, on the leftover extended by `c`. -/
theorem processBuffer_append (parse : Str → Option JsValue) :
    ∀ n b c, List.length b ≤ n →
      processBuffer parse (b ++ c) =
        (match (processBuffer parse b).2 with
         | .more b' =>
           ((processBuffer parse b).1 ++ (processBuffer parse (b' ++ c)).1,
            (processBuffer parse (b' ++ c)).2)
         | .fin b' => ((processBuffer parse b).1, .fin (b' ++ c))
         | .raise m => ((processBuffer parse b).1, .raise m)) := by
  intro n
  induction n using Nat.strong_induction_on with
  | _ n ih =>
    intro b c hn
    cases hsplit : splitFirstDelim b with
    | none =>
      rw [processBuffer_none parse b hsplit]
      simp
    | some pr =>
      obtain ⟨raw, rest⟩ := pr
      have hb2 : b = raw ++ '\n' :: '\n' :: rest :=
        splitFirstDelim_eq_some b raw rest hsplit
      have hlen : List.length b = List.length raw + List.length rest + 2 := by
        subst hb2; simp [List.length_append]; omega
      have hsplit2 : splitFirstDelim (b ++ c) = some (raw, rest ++ c) :=
        splitFirstDelim_append b c raw rest hsplit
      rw [processBuffer_some parse b raw rest hsplit,
        processBuffer_some parse (b ++ c) raw (rest ++ c) hsplit2]
      have ihr := ih (List.length rest) (by omega) rest c (Nat.le_refl _)
      by_cases hp : extractPayload raw = []
      · rw [if_pos hp, if_pos hp]
        exact ihr
      · rw [if_neg hp, if_neg hp]
        by_cases hd : extractPayload raw = doneLit
        · rw [if_pos hd, if_pos hd]
        · rw [if_neg hd, if_neg hd]
          cases hact : handlePayload parse (extractPayload raw) with
          | emit s =>
            simp only [hact]
            rw [ihr]
            cases hrest : (processBuffer parse rest).2 with
            | more b' => simp
            | fin b' => simp
            | raise m => simp
          | skip =>
            simp only [hact]
            exact ihr
          | raise m =>
            simp only [hact]

/-- After `completed` is set the read loop consumes nothing further. -/
theorem runLoop_completed (parse : Str → Option JsValue) (cs : List Str) :
    runLoop parse .completedSt cs = ([], .completedSt) := by
  induction cs with
  | nil => rfl
  | cons c cs ih => simp [runLoop, feedChunk, ih]

/-- After an exception the read loop consumes nothing further. -/
theorem runLoop_raised (parse : Str → Option JsValue) (m : Str) (cs : List Str) :
    runLoop parse (.raised m) cs = ([], .raised m) := by
  induction cs with
  | nil => rfl
  | cons c cs ih => simp [runLoop, feedChunk, ih]

/-- A `reading` state produced by one loop iteration always carries a
delimiter-free buffer. -/
theorem feedChunk_reading_none (parse : Str → Option JsValue) (buf c b' : Str)
    (h : (feedChunk parse (.reading buf) c).2 = .reading b') :
    splitFirstDelim b' = none := by
  simp only [feedChunk] at h
  cases hpb : (processBuffer parse (buf ++ c)).2 with
  | more b0 =>
    rw [hpb] at h
    simp only [LoopState.reading.injEq] at h
    subst h
    exact processBuffer_more_none parse (List.length (buf ++ c)) (buf ++ c)
      (processBuffer parse (buf ++ c)).1 b0 (Nat.le_refl _)
      (by rw [← hpb])
  | fin b0 => rw [hpb] at h; simp at h
  | raise m => rw [hpb] at h; simp at h

/-- Splitting one upstream chunk into two consecutive reads produces the
same emissions and the same final state. -/
theorem feedChunk_append (parse : Str → Option JsValue) (buf c1 c2 : Str) :
    feedChunk parse (.reading buf) (c1 ++ c2) =
      ((feedChunk parse (.reading buf) c1).1 ++
        (feedChunk parse (feedChunk parse (.reading buf) c1).2 c2).1,
       (feedChunk parse (feedChunk parse (.reading buf) c1).2 c2).2) := by
  have happ := processBuffer_append parse (List.length (buf ++ c1)) (buf ++ c1) c2
    (Nat.le_refl _)
  simp only [feedChunk, ← List.append_assoc, happ]
  cases h1 : (processBuffer parse (buf ++ c1)).2 with
  | more b' =>
    simp only []
    cases h2 : (processBuffer parse (b' ++ c2)).2 with
    | more b2 => simp
    | fin b2 => simp
    | raise m => simp
  | fin b' => simp
  | raise m => simp

/-- Feeding the chunks one at a time equals feeding their concatenation
as one chunk, from any delimiter-free reading state. -/
theorem runLoop_join (parse : Str → Option JsValue) :
    ∀ (pieces : List Str) (buf : Str), splitFirstDelim buf = none →
      runLoop parse (.reading buf) pieces =
        feedChunk parse (.reading buf) pieces.flatten := by
  intro pieces
  induction pieces with
  | nil =>
    intro buf h
    simp [runLoop, feedChunk, processBuffer_none parse buf h]
  | cons c cs ih =>
    intro buf h
    have hcons : (c :: cs).flatten = c ++ cs.flatten := by simp
    rw [hcons, feedChunk_append parse buf c cs.flatten]
    simp only [runLoop]
    cases hf : (feedChunk parse (.reading buf) c).2 with
    | reading b' =>
      have hb' : splitFirstDelim b' = none := feedChunk_reading_none parse buf c b' hf
      rw [ih b' hb']
    | completedSt =>
      rw [runLoop_completed]
      simp [feedChunk]
    | raised m =>
      rw [runLoop_raised]
      simp [feedChunk]

/-- Chunk messages are never terminal. -/
theorem terminalCount_chunks (evs : List Str) :
    terminalCount (evs.map Msg.chunk) = 0 := by
  induction evs with
  | nil => rfl
  | cons e t ih => simp only [List.map_cons, terminalCount, List.filter, isTerminal]; exact ih

/-- Terminal count distributes over append. -/
theorem terminalCount_append (l1 l2 : List Msg) :
    terminalCount (l1 ++ l2) = terminalCount l1 + terminalCount l2 := by
  simp [terminalCount, List.filter_append]

/-- Prepending chunk messages preserves the no-post-terminal-chunk
property. -/
theorem noPostTerminalChunk_chunks (evs : List Str) (tail : List Msg)
    (h : noPostTerminalChunk tail = true) :
    noPostTerminalChunk (evs.map Msg.chunk ++ tail) = true := by
  induction evs with
  | nil => simp only [List.map_nil, List.nil_append]; exact h
  | cons e t ih => simpa [noPostTerminalChunk, isTerminal] using ih

/-- A single trailing message cannot violate the ordering property. -/
theorem noPostTerminalChunk_single (t : Msg) :
    noPostTerminalChunk [t] = true := by
  cases t <;> simp [noPostTerminalChunk, isTerminal]

/-- C1: for every session and every sequence of upstream byte chunks,
the relay delivers at most one terminal downstream message (`done` or
`error`), and no `chunk` message is delivered after a terminal message. -/
theorem C1_single_terminal (parse : Str → Option JsValue) (inp : SessionInput) :
    terminalCount (sessionMsgs parse inp) ≤ 1 ∧
      noPostTerminalChunk (sessionMsgs parse inp) = true := by
  have hgen : ∀ (evs : List Str) (t : Msg),
      terminalCount (evs.map Msg.chunk ++ [t]) ≤ 1 ∧
        noPostTerminalChunk (evs.map Msg.chunk ++ [t]) = true := by
    intro evs t
    constructor
    · rw [terminalCount_append, terminalCount_chunks]
      cases t <;> simp [terminalCount, List.filter, isTerminal]
    · exact noPostTerminalChunk_chunks evs [t] (noPostTerminalChunk_single t)
  have hchunks : ∀ evs : List Str,
      terminalCount (evs.map Msg.chunk) ≤ 1 ∧
        noPostTerminalChunk (evs.map Msg.chunk) = true := by
    intro evs
    refine ⟨by rw [terminalCount_chunks]; omega, ?_⟩
    have := noPostTerminalChunk_chunks evs [] rfl
    simpa using this
  cases inp with
  | noKey => exact hgen [] (Msg.error configErrMsg)
  | fetchFail status body => exact hgen [] (Msg.error (upstreamFailMsg status body))
  | stream chunks cut =>
    cases cut with
    | none =>
      cases hout : (runStream parse chunks).2 with
      | ok =>
        have h := hgen (runStream parse chunks).1 Msg.done
        simpa [sessionMsgs, streamMsgs, hout] using h
      | raise m =>
        have h := hgen (runStream parse chunks).1 (Msg.error m)
        simpa [sessionMsgs, streamMsgs, hout] using h
    | some k =>
      cases hout : (runLoop parse (.reading []) (chunks.take k)).2 with
      | reading buf =>
        have h := hchunks (runLoop parse (.reading []) (chunks.take k)).1
        simpa [sessionMsgs, streamMsgs, hout] using h
      | completedSt =>
        have h := hgen (runLoop parse (.reading []) (chunks.take k)).1 Msg.done
        simpa [sessionMsgs, streamMsgs, hout] using h
      | raised m =>
        have h := hgen (runLoop parse (.reading []) (chunks.take k)).1 (Msg.error m)
        simpa [sessionMsgs, streamMsgs, hout] using h

/-- C2: splitting the upstream byte stream into chunks at arbitrary
boundaries and feeding them one at a time yields exactly the same
ordered emissions and the same outcome as feeding the entire stream as
a single chunk. -/
theorem C2_reassembly_independence (parse : Str → Option JsValue) (pieces : List Str) :
    runStream parse pieces = runStream parse [pieces.flatten] := by
  have h1 : runLoop parse (.reading []) pieces =
      feedChunk parse (.reading []) pieces.flatten :=
    runLoop_join parse pieces [] rfl
  have h2 : runLoop parse (.reading []) [pieces.flatten] =
      feedChunk parse (.reading []) pieces.flatten := by
    simp [runLoop]
  unfold runStream
  rw [h1, h2]

/-- The read loop, started on a delimiter-free buffer, only ever reaches
`reading` states with delimiter-free buffers. -/
theorem runLoop_reading_none (parse : Str → Option JsValue) :
    ∀ (cs : List Str) (b0 buf : Str) (evs : List Str), splitFirstDelim b0 = none →
      runLoop parse (.reading b0) cs = (evs, .reading buf) →
      splitFirstDelim buf = none := by
  intro cs
  induction cs with
  | nil =>
    intro b0 buf evs h0 h
    simp only [runLoop, Prod.mk.injEq, LoopState.reading.injEq] at h
    obtain ⟨-, rfl⟩ := h
    exact h0
  | cons c cs ih =>
    intro b0 buf evs h0 h
    simp only [runLoop, Prod.mk.injEq] at h
    obtain ⟨-, h2⟩ := h
    cases hf : (feedChunk parse (.reading b0) c).2 with
    | reading b' =>
      rw [hf] at h2
      exact ih b' buf (runLoop parse (.reading b') cs).1
        (feedChunk_reading_none parse b0 c b' hf)
        (by rw [← h2])
    | completedSt =>
      rw [hf, runLoop_completed] at h2
      simp at h2
    | raised m =>
      rw [hf, runLoop_raised] at h2
      simp at h2

/-- The read loop splits over a partition of the chunk sequence. -/
theorem runLoop_append (parse : Str → Option JsValue) :
    ∀ (cs1 cs2 : List Str) (st : LoopState),
      runLoop parse st (cs1 ++ cs2) =
        ((runLoop parse st cs1).1 ++
          (runLoop parse (runLoop parse st cs1).2 cs2).1,
         (runLoop parse (runLoop parse st cs1).2 cs2).2) := by
  intro cs1
  induction cs1 with
  | nil => intro cs2 st; simp [runLoop]
  | cons c cs ih =>
    intro cs2 st
    simp only [List.cons_append, runLoop, List.append_eq]
    rw [ih cs2 (feedChunk parse st c).2]
    simp [List.append_assoc]

/-- C3: a frame whose payload is exactly the sentinel `[DONE]` completes
the session at once: the sentinel frame emits nothing and the loop
returns leaving the remaining buffered bytes unprocessed, further
upstream chunks are never consumed, and the only downstream message of
the session is `done`. -/
theorem C3_sentinel_halts (parse : Str → Option JsValue) (raw rest : Str)
    (more : List Str)
    (hnd : splitFirstDelim (raw ++ ['\n']) = none)
    (hp : extractPayload raw = doneLit) :
    processBuffer parse (raw ++ '\n' :: '\n' :: rest) = ([], .fin rest) ∧
      runLoop parse .completedSt more = ([], .completedSt) ∧
      streamMsgs parse ((raw ++ '\n' :: '\n' :: rest) :: more) none = [Msg.done] ∧
      (∀ (pre : List Str) (evs : List Str),
        runLoop parse (.reading []) pre = (evs, .reading []) →
        streamMsgs parse (pre ++ (raw ++ '\n' :: '\n' :: rest) :: more) none =
          evs.map Msg.chunk ++ [Msg.done]) := by
  have hsplit := splitFirstDelim_frame rest raw hnd
  have hpb : processBuffer parse (raw ++ '\n' :: '\n' :: rest) = ([], .fin rest) := by
    rw [processBuffer_some parse _ raw rest hsplit, hp]
    have : doneLit ≠ ([] : Str) := by decide
    rw [if_neg this, if_pos rfl]
  have hfeed : feedChunk parse (.reading []) (raw ++ '\n' :: '\n' :: rest)
      = ([], .completedSt) := by
    simp [feedChunk, hpb]
  refine ⟨hpb, runLoop_completed parse more, ?_, ?_⟩
  · simp [streamMsgs, runStream, runLoop, hfeed, runLoop_completed]
  · intro pre evs hpre
    rw [streamMsgs, runStream, runLoop_append parse pre _ (.reading []), hpre]
    simp [runLoop, hfeed, runLoop_completed]

/-- C10: when the upstream stream ends without the `[DONE]` sentinel
(and without a raised error), the session still completes normally: the
final flush adds nothing and the delivered messages are exactly the
forwarded chunks followed by `done`. -/
theorem C10_missing_sentinel_done (parse : Str → Option JsValue)
    (chunks : List Str) (evs : List Str) (buf : Str)
    (h : runLoop parse (.reading []) chunks = (evs, .reading buf)) :
    streamMsgs parse chunks none = evs.map Msg.chunk ++ [Msg.done] := by
  have hbuf : splitFirstDelim buf = none :=
    runLoop_reading_none parse chunks [] buf evs rfl h
  simp [streamMsgs, runStream, h, processBuffer_none parse buf hbuf]

/-- C5: when the downstream peer disconnects while the session is still
streaming (its read-loop state is still `reading` after the chunks read
so far), the delivered messages are exactly the already-forwarded chunk
messages; no `done` and no `error` message is ever delivered afterward. -/
theorem C5_cancellation_silence (parse : Str → Option JsValue)
    (chunks : List Str) (k : Nat) (evs : List Str) (buf : Str)
    (h : runLoop parse (.reading []) (chunks.take k) = (evs, .reading buf)) :
    streamMsgs parse chunks (some k) = evs.map Msg.chunk ∧
      ∀ m ∈ streamMsgs parse chunks (some k), isTerminal m = false := by
  have hmsgs : streamMsgs parse chunks (some k) = evs.map Msg.chunk := by
    simp [streamMsgs, h]
  refine ⟨hmsgs, ?_⟩
  intro m hm
  rw [hmsgs] at hm
  obtain ⟨e, -, rfl⟩ := List.mem_map.mp hm
  rfl

/-- C6 counterexample: the upstream stream `data: hi` ends with non-empty
buffered text and no trailing blank-line delimiter, its trailing text
extracts to the payload `hi`, and that payload would emit a chunk if the
frame were processed — yet the session emits nothing and just completes:
the end-of-stream flush never treats the trailing text as a frame. -/
theorem C6_counterexample :
    extractPayload ("data: hi".toList) = "hi".toList ∧
      handlePayload pC6 ("hi".toList) = FrameAct.emit ("hi!".toList) ∧
      runStream pC6 ["data: hi".toList] = ([], RunOut.ok) ∧
      streamMsgs pC6 ["data: hi".toList] none = [Msg.done] :=
  ⟨by decide, by decide, by decide, by decide⟩

/-- C6 (amended): on end-of-stream the leftover buffer is re-run through
`processBuffer`, which is a no-op — a `more` leftover never contains a
delimiter, so re-processing it yields no frame and no event, and an
upstream stream ending in a trailing partial frame contributes exactly
the events of its complete frames followed by normal completion.  (The
re-run is indeed skipped after the sentinel, since the loop state is
then `completedSt` and `runStream` never reaches the flush.) -/
theorem C6_trailing_discarded :
    (∀ (parse : Str → Option JsValue) (b : Str) (evs : List Str) (b' : Str),
        processBuffer parse b = (evs, PBOut.more b') →
        processBuffer parse b' = ([], PBOut.more b')) ∧
      (∀ (parse : Str → Option JsValue) (chunks : List Str) (evs : List Str) (buf : Str),
        runLoop parse (.reading []) chunks = (evs, .reading buf) →
        runStream parse chunks = (evs, RunOut.ok)) := by
  constructor
  · intro parse b evs b' h
    exact processBuffer_none parse b'
      (processBuffer_more_none parse (List.length b) b evs b' (Nat.le_refl _) h)
  · intro parse chunks evs buf h
    have hbuf : splitFirstDelim buf = none :=
      runLoop_reading_none parse chunks [] buf evs rfl h
    simp [runStream, h, processBuffer_none parse buf hbuf]

/-- C6 witness: the flush no-op and the trailing-discard conclusion at
concrete inputs. -/
theorem C6_witness :
    processBuffer pC6 ("data: x".toList) = ([], PBOut.more ("data: x".toList)) ∧
      runStream pC6 ["data: hi".toList] = ([], RunOut.ok) :=
  ⟨C6_trailing_discarded.1 pC6 ("data: x".toList) [] ("data: x".toList) (by decide),
   C6_trailing_discarded.2 pC6 ["data: hi".toList] [] ("data: hi".toList) (by decide)⟩

/-- C4: evaluation of the code at the failing input.  A frame whose
decoded payload is an explicit upstream error with the embedded message
`upstream exploded` is classified as a skip — the `throw new
Error(message)` is caught by the surrounding `catch` and not re-thrown,
because the embedded message does not contain the literal
`OpenAPI service returned` that the re-throw filter tests for.  The
session carries on and ends with `done`; no error message is ever
forwarded downstream, contradicting the claim. -/
theorem C4_embedded_message_swallowed :
    classifyParsed (.obj (.cons typeKey (.str errTypeLit)
        (.cons errKey (.obj (.cons msgKey (.str "upstream exploded".toList) .nil)) .nil)))
      = FrameAct.skip ∧
      sIncludes ("upstream exploded".toList) magicLit = false ∧
      streamMsgs pC4 ["data: errA\n\ndata: [DONE]\n\n".toList] none = [Msg.done] :=
  ⟨by decide, by decide, by decide⟩

/-- A payload that fails to decode is skipped. -/
theorem handlePayload_none (parse : Str → Option JsValue) (p : Str)
    (h : parse p = none) : handlePayload parse p = .skip := by
  simp [handlePayload, h]

/-- Processing one leading non-empty, non-sentinel frame prepends its
action to the processing of the remaining buffer. -/
theorem processBuffer_frame (parse : Str → Option JsValue) (raw rest : Str)
    (hnd : splitFirstDelim (raw ++ ['\n']) = none)
    (hne : extractPayload raw ≠ [])
    (hds : extractPayload raw ≠ doneLit) :
    processBuffer parse (raw ++ '\n' :: '\n' :: rest) =
      (match handlePayload parse (extractPayload raw) with
       | .emit s => ((s :: (processBuffer parse rest).1), (processBuffer parse rest).2)
       | .skip => processBuffer parse rest
       | .raise m => ([], .raise m)) := by
  rw [processBuffer_some parse _ raw rest (splitFirstDelim_frame rest raw hnd),
    if_neg hne, if_neg hds]

/-- C7: a frame whose payload is not decodable is skipped without
terminating the session — a later well-formed frame still emits its
chunk, and the rest of the stream is processed unchanged; but an
explicit upstream-error frame whose error resolution yields no usable
message is promoted to the default-message error, which terminates the
session and is forwarded downstream. -/
theorem C7_malformed_tolerance :
    (∀ (parse : Str → Option JsValue) (braw graw rest s : Str),
      splitFirstDelim (braw ++ ['\n']) = none →
      splitFirstDelim (graw ++ ['\n']) = none →
      parse (extractPayload braw) = none →
      extractPayload braw ≠ [] →
      extractPayload braw ≠ doneLit →
      handlePayload parse (extractPayload graw) = .emit s →
      extractPayload graw ≠ [] →
      extractPayload graw ≠ doneLit →
      processBuffer parse (braw ++ '\n' :: '\n' :: (graw ++ '\n' :: '\n' :: rest)) =
        ((s :: (processBuffer parse rest).1), (processBuffer parse rest).2)) ∧
    (∀ (parse : Str → Option JsValue) (v : JsValue) (raw rest : Str),
      parse (extractPayload raw) = some v →
      getField v typeKey = some (.str errTypeLit) →
      getField v choicesKey = none →
      getField v contentKey = none →
      getField v textKey = none →
      getField v errKey = none →
      splitFirstDelim (raw ++ ['\n']) = none →
      extractPayload raw ≠ [] →
      extractPayload raw ≠ doneLit →
      handlePayload parse (extractPayload raw) = .raise defaultErrMsg ∧
        streamMsgs parse [raw ++ '\n' :: '\n' :: rest] none = [Msg.error defaultErrMsg]) := by
  constructor
  · intro parse braw graw rest s hnd1 hnd2 hparse hne1 hds1 hemit hne2 hds2
    rw [processBuffer_frame parse braw _ hnd1 hne1 hds1,
      handlePayload_none parse _ hparse,
      processBuffer_frame parse graw rest hnd2 hne2 hds2, hemit]
  · intro parse v raw rest hparse htype hchoices hcontent htext herr hnd hne hds
    have hclass : classifyParsed v = .raise defaultErrMsg := by
      have hdt : deltaText v = none := by
        simp [deltaText, htype, show ¬(errTypeLit = deltaTypeLit) from by decide]
      have hcb : choicesBranch v = none := by
        simp [choicesBranch, hchoices]
      have hsf1 : strField v contentKey = none := by
        simp [strField, hcontent]
      have hsf2 : strField v textKey = none := by
        simp [strField, htext]
      have hem : errMessage v = defaultErrMsg := by
        simp [errMessage, herr]
      simp [classifyParsed, hdt, hcb, hsf1, hsf2, htype, hem,
        show sIncludes defaultErrMsg magicLit = true from by decide]
    have hhp : handlePayload parse (extractPayload raw) = .raise defaultErrMsg := by
      simp [handlePayload, hparse, hclass]
    refine ⟨hhp, ?_⟩
    have hpb : processBuffer parse (raw ++ '\n' :: '\n' :: rest) =
        ([], .raise defaultErrMsg) := by
      rw [processBuffer_frame parse raw rest hnd hne hds, hhp]
    have hfeed : feedChunk parse (.reading []) (raw ++ '\n' :: '\n' :: rest) =
        ([], .raised defaultErrMsg) := by
      simp [feedChunk, hpb]
    simp [streamMsgs, runStream, runLoop, hfeed]

/-- C7 witness: with `pC7`, the malformed frame `data: o(ps` is skipped
and the later frame `data: good` still emits `ok`; the message-less
error frame `data: errframe` raises and forwards the default message. -/
theorem C7_witness :
    processBuffer pC7
        ("data: o(ps".toList ++ '\n' :: '\n' ::
          ("data: good".toList ++ '\n' :: '\n' :: ([] : Str))) =
      (("ok".toList :: (processBuffer pC7 ([] : Str)).1),
        (processBuffer pC7 ([] : Str)).2) ∧
      handlePayload pC7 (extractPayload ("data: errframe".toList)) =
        FrameAct.raise defaultErrMsg ∧
      streamMsgs pC7 [("data: errframe".toList ++ '\n' :: '\n' :: ([] : Str))] none =
        [Msg.error defaultErrMsg] := by
  refine ⟨?_, ?_, ?_⟩
  · exact C7_malformed_tolerance.1 pC7 ("data: o(ps".toList) ("data: good".toList)
      [] ("ok".toList) (by decide) (by decide) rfl (by decide) (by decide)
      (by decide) (by decide) (by decide)
  · exact (C7_malformed_tolerance.2 pC7
      (.obj (.cons typeKey (.str errTypeLit) .nil)) ("data: errframe".toList) []
      rfl rfl rfl rfl rfl rfl (by decide) (by decide) (by decide)).1
  · exact (C7_malformed_tolerance.2 pC7
      (.obj (.cons typeKey (.str errTypeLit) .nil)) ("data: errframe".toList) []
      rfl rfl rfl rfl rfl rfl (by decide) (by decide) (by decide)).2

/-- The line pipeline of `extractPayload` written as one `filterMap`. -/
theorem payload_filterMap (ls : List Str) :
    ((ls.map trimStr).filter (fun l => dataMark.isPrefixOf l)).map stripData =
      ls.filterMap (fun l =>
        if dataMark.isPrefixOf (trimStr l) then
          some (((trimStr l).drop 5).dropWhile isJsWs)
        else none) := by
  induction ls with
  | nil => rfl
  | cons l ls ih =>
    simp only [List.map_cons, List.filter_cons, List.filterMap_cons]
    cases hp : dataMark.isPrefixOf (trimStr l) with
    | false => simpa [hp] using ih
    | true => simp [hp, stripData, ih]

/-- C8 counterexample: the claim's own extraction (prefix test on the
raw line, one following space stripped) disagrees with the code on the
line `data:(two spaces)hi` — the code strips all whitespace after the
marker — and on the line `(tab)data: x` — the code trims the line
before testing the prefix. -/
theorem C8_counterexample :
    extractPayload ("data:  hi".toList) ≠ claimPayloadC8 ("data:  hi".toList) ∧
      extractPayload ("\tdata: x".toList) ≠ claimPayloadC8 ("\tdata: x".toList) :=
  ⟨by decide, by decide⟩

/-- C8 (amended): each line of a candidate frame is first trimmed of
surrounding whitespace; a trimmed line contributes exactly when it
begins with the literal prefix `data:`; the prefix and all following
whitespace are stripped; the surviving lines are rejoined with a line
break (`extractPayload` equals the spec-shaped `specPayloadWs` on every
input); and a frame whose resulting payload is empty produces no event
— its removal leaves the processing of the remaining buffer unchanged. -/
theorem C8_payload_extraction :
    (∀ raw : Str, extractPayload raw = specPayloadWs raw) ∧
      (∀ (parse : Str → Option JsValue) (raw rest : Str),
        splitFirstDelim (raw ++ ['\n']) = none →
        extractPayload raw = [] →
        processBuffer parse (raw ++ '\n' :: '\n' :: rest) = processBuffer parse rest) := by
  constructor
  · intro raw
    unfold extractPayload specPayloadWs
    rw [payload_filterMap]
  · intro parse raw rest hnd hne
    rw [processBuffer_some parse _ raw rest (splitFirstDelim_frame rest raw hnd),
      if_pos hne]

/-- C8 witness: the extraction agreement on a concrete frame, and the
no-event behaviour of a frame whose payload is empty (a lone comment
line `: keepalive`). -/
theorem C8_witness :
    extractPayload ("data: a\ndata:\tb".toList) =
        specPayloadWs ("data: a\ndata:\tb".toList) ∧
      processBuffer (fun _ => none)
          (": keepalive".toList ++ '\n' :: '\n' :: "rest".toList) =
        processBuffer (fun _ => none) ("rest".toList) :=
  ⟨C8_payload_extraction.1 ("data: a\ndata:\tb".toList),
   C8_payload_extraction.2 (fun _ => none) (": keepalive".toList) ("rest".toList)
     (by decide) (by decide)⟩

/-- A list untouched by `dropWhile` has a non-matching head. -/
theorem dropWhile_head_false (f : Char → Bool) (c : Char) (t : Str)
    (h : List.dropWhile f (c :: t) = c :: t) : f c = false := by
  cases hf : f c with
  | false => rfl
  | true =>
    rw [List.dropWhile_cons, if_pos hf] at h
    have hlen := (List.dropWhile_suffix (l := t) f).length_le
    rw [h] at hlen
    simp at hlen

/-- A fixed point of `trimStr` is untouched by both directional
`dropWhile` passes. -/
theorem trim_fix_parts (s : Str) (h : trimStr s = s) :
    s.dropWhile isJsWs = s ∧ s.reverse.dropWhile isJsWs = s.reverse := by
  unfold trimStr at h
  have hu : s.dropWhile isJsWs <:+ s := List.dropWhile_suffix isJsWs
  have hv : (s.dropWhile isJsWs).reverse.dropWhile isJsWs <:+
      (s.dropWhile isJsWs).reverse := List.dropWhile_suffix isJsWs
  have l1 : ((s.dropWhile isJsWs).reverse.dropWhile isJsWs).length = s.length := by
    rw [← List.length_reverse ((s.dropWhile isJsWs).reverse.dropWhile isJsWs), h]
  have l2 := hv.length_le
  have l3 := hu.length_le
  rw [List.length_reverse] at l2
  have hu_eq : s.dropWhile isJsWs = s := hu.eq_of_length (by omega)
  have hv_eq : (s.dropWhile isJsWs).reverse.dropWhile isJsWs =
      (s.dropWhile isJsWs).reverse :=
    hv.eq_of_length (by rw [List.length_reverse]; omega)
  rw [hu_eq] at hv_eq
  exact ⟨hu_eq, hv_eq⟩

/-- `hay.includes(needle)` agrees with list infix. -/
theorem sIncludes_iff (hay needle : Str) :
    sIncludes hay needle = true ↔ needle <:+: hay := by
  induction hay with
  | nil => simp [sIncludes, List.isEmpty_iff, List.infix_nil]
  | cons c t ih =>
    rw [sIncludes]
    simp only [Bool.or_eq_true, List.isPrefixOf_iff_prefix, ih]
    exact (List.infix_cons_iff).symm

/-- Exact value of the upstream failure message: the template's head is
never whitespace, so the final `.trim()` only removes the trailing space
left when the response body text is empty. -/
theorem upstreamFailMsg_eq (status : Nat) (body : Str)
    (hb : body.reverse.dropWhile isJsWs = body.reverse) :
    upstreamFailMsg status body =
      if body = [] then
        "OpenAPI request failed with status ".toList ++ natToStr status ++ [':']
      else
        "OpenAPI request failed with status ".toList ++ natToStr status ++
          [':', ' '] ++ body := by
  unfold upstreamFailMsg trimStr
  have hcons : "OpenAPI request failed with status ".toList ++ natToStr status ++
      [':', ' '] ++ body =
      'O' :: ("penAPI request failed with status ".toList ++ natToStr status ++
        [':', ' '] ++ body) := rfl
  rw [hcons, List.dropWhile_cons]
  rw [if_neg (by decide)]
  rw [← hcons]
  by_cases hbody : body = []
  · subst hbody
    rw [if_pos rfl]
    simp [List.reverse_append, List.dropWhile_cons, List.append_assoc,
      show isJsWs ' ' = true from by decide,
      show isJsWs ':' = false from by decide]
  · rw [if_neg hbody]
    cases hrev : body.reverse with
    | nil => exact absurd (List.reverse_eq_nil_iff.mp hrev) hbody
    | cons c' t' =>
      rw [hrev] at hb
      have hc' : isJsWs c' = false := dropWhile_head_false isJsWs c' t' hb
      have hbody_eq : body = t'.reverse ++ [c'] := by
        rw [← List.reverse_reverse body, hrev]
        simp
      simp [hbody_eq, List.reverse_append, List.dropWhile_cons, List.append_assoc, hc']

/-- C9: when the initial upstream request is rejected (non-success
status or missing body), the session delivers exactly one downstream
message, an error whose text (the trimmed template) embeds the status
digits, and — when the response body text is not empty — the body; no
chunk message is ever delivered. -/
theorem C9_request_failure_message (parse : Str → Option JsValue)
    (status : Nat) (body : Str) (hbody : trimStr body = body) :
    sessionMsgs parse (.fetchFail status body) =
        [Msg.error (upstreamFailMsg status body)] ∧
      (∀ m ∈ sessionMsgs parse (.fetchFail status body), isTerminal m = true) ∧
      sIncludes (upstreamFailMsg status body) (natToStr status) = true ∧
      (body ≠ [] → sIncludes (upstreamFailMsg status body) body = true) := by
  have heq := upstreamFailMsg_eq status body (trim_fix_parts body hbody).2
  refine ⟨rfl, ?_, ?_, ?_⟩
  · intro m hm
    simp only [sessionMsgs, List.mem_singleton] at hm
    subst hm
    rfl
  · rw [heq]
    by_cases hb0 : body = []
    · rw [if_pos hb0, sIncludes_iff]
      exact ⟨"OpenAPI request failed with status ".toList, [':'], by simp⟩
    · rw [if_neg hb0, sIncludes_iff]
      exact ⟨"OpenAPI request failed with status ".toList, [':', ' '] ++ body, by simp⟩
  · intro hb0
    rw [heq, if_neg hb0, sIncludes_iff]
    exact ⟨"OpenAPI request failed with status ".toList ++ natToStr status ++ [':', ' '],
      [], by simp⟩

/-- C9 witness: the upstream request fails with status 429 and body
`rate limited`; the single delivered message is the error embedding the
status digits and the body. -/
theorem C9_witness :
    sessionMsgs (fun _ => none) (.fetchFail 429 ("rate limited".toList)) =
        [Msg.error (upstreamFailMsg 429 ("rate limited".toList))] ∧
      sIncludes (upstreamFailMsg 429 ("rate limited".toList)) (natToStr 429) = true ∧
      sIncludes (upstreamFailMsg 429 ("rate limited".toList)) ("rate limited".toList)
        = true := by
  have h := C9_request_failure_message (fun _ => none) 429 ("rate limited".toList)
    (by decide)
  exact ⟨h.1, h.2.2.1, h.2.2.2 (by decide)⟩

/-- C3 witness: with `pC3` every decoded payload would emit `JUNK`, yet
after the sentinel frame nothing is emitted — neither the complete frame
still buffered behind the sentinel nor a further upstream chunk. -/
theorem C3_witness :
    processBuffer pC3
        ("data: [DONE]".toList ++ '\n' :: '\n' :: "data: junk\n\n".toList) =
      ([], PBOut.fin ("data: junk\n\n".toList)) ∧
      streamMsgs pC3
        [("data: [DONE]".toList ++ '\n' :: '\n' :: "data: junk\n\n".toList),
          "data: more\n\n".toList] none = [Msg.done] ∧
      streamMsgs pC3
        (["data: x\n\n".toList] ++
          ("data: [DONE]".toList ++ '\n' :: '\n' :: "data: junk\n\n".toList) ::
            ["data: more\n\n".toList]) none =
        (["JUNK".toList] : List Str).map Msg.chunk ++ [Msg.done] := by
  have h := C3_sentinel_halts pC3 ("data: [DONE]".toList) ("data: junk\n\n".toList)
    ["data: more\n\n".toList] (by decide) (by decide)
  exact ⟨h.1, h.2.2.1, h.2.2.2 ["data: x\n\n".toList] ["JUNK".toList] (by decide)⟩

/-- C5 witness: the peer disconnects after the first chunk was forwarded
and before the sentinel arrives; the delivered messages are exactly the
one chunk. -/
theorem C5_witness :
    streamMsgs pC5 ["data: d1\n\n".toList, "data: [DONE]\n\n".toList] (some 1) =
      (["Hi".toList] : List Str).map Msg.chunk :=
  (C5_cancellation_silence pC5 ["data: d1\n\n".toList, "data: [DONE]\n\n".toList] 1
    ["Hi".toList] [] (by decide)).1

/-- C10 witness: the upstream stream ends without a sentinel, with a
trailing partial frame still buffered; the session still delivers its
chunk followed by `done`. -/
theorem C10_witness :
    streamMsgs pC10 ["data: d1\n\nda".toList, "ta: tail".toList] none =
      (["a".toList] : List Str).map Msg.chunk ++ [Msg.done] :=
  C10_missing_sentinel_done pC10 ["data: d1\n\nda".toList, "ta: tail".toList]
    ["a".toList] ("data: tail".toList) (by decide)

end Vibe
